import Mathlib

/-!
Shallow embedding of the event-operations dashboard's core logic:
the staff/group alert-broadcast flow (`EmitirAlertaView`) and the
ranking/aggregation pipeline (`RankingView`).

JavaScript strings are modelled through `String.data` (their character
sequence); JavaScript records built by `reduce` are modelled as
insertion-ordered association lists; `Array.prototype.sort` with the
comparator `(a, b) => b.value - a.value` is modelled by a stable
insertion sort with the relation "greater or equal value".
-/

namespace CIE

/-- JavaScript `s.startsWith(p)`: `p` is a prefix of `s`. -/
def strStartsWith (s p : String) : Bool :=
  p.data.isPrefixOf s.data

/-- JavaScript `s.endsWith(p)`: `p` is a suffix of `s`. -/
def strEndsWith (s p : String) : Bool :=
  List.isSuffixOf p.data s.data

/-- Truthiness of `s.trim()`: the trimmed string is non-empty exactly when
some character of `s` is not whitespace. -/
def trimNonempty (s : String) : Bool :=
  s.data.any (fun c => !c.isWhitespace)

/-! ### Data model -/

/-- A department of the event staff. -/
structure Department where
  id : String
  name : String
  deriving DecidableEq

/-- A staff member. `phone` is the empty string when no phone number is on
file: the JavaScript value `s.phone` is falsy exactly in that case. -/
structure Staff where
  id : String
  name : String
  phone : String
  departmentId : String
  photoUrl : Option String
  deriving DecidableEq

/-- The authenticated user sending alerts. -/
structure User where
  id : String
  name : String
  deriving DecidableEq

/-- A timestamped report submitted at a booth. -/
structure ReportSubmission where
  boothCode : String
  reportLabel : String
  timestamp : String
  deriving DecidableEq

/-- A participant company, with the booth code of its physical location. -/
structure ParticipantCompany where
  id : String
  name : String
  boothCode : String
  logoUrl : Option String
  deriving DecidableEq

/-- A timestamped record of an action performed by a staff member. -/
structure StaffActivity where
  timestamp : String
  deriving DecidableEq

/-- The `company` object embedded in a detailed sale. -/
structure SaleCompany where
  id : String
  name : String
  logoUrl : Option String
  deriving DecidableEq

/-- The `collaborator` object embedded in a detailed sale. -/
structure SaleCollaborator where
  id : String
  name : String
  photoUrl : Option String
  collaboratorCode : String
  deriving DecidableEq

/-- A detailed sale record; `company` and `collaborator` are nullable. -/
structure DetailedSale where
  marca : String
  model : String
  updatedAt : String
  company : Option SaleCompany
  collaborator : Option SaleCollaborator
  deriving DecidableEq

/-- One bar of a ranking chart. -/
structure ChartData where
  label : String
  value : Nat
  logoUrl : Option String
  deriving DecidableEq

/-! ### Alert flow -/

/-- One recipient entry of an alert log. -/
structure AlertRecipient where
  staffId : String
  staffName : String
  staffPhone : String
  deriving DecidableEq

/-- A persisted alert log entry, as passed to `addAlertLog`.  The group flow
omits `departmentId`, modelled by `none`. -/
structure AlertLog where
  eventId : String
  senderUserId : String
  departmentId : Option String
  message : String
  recipients : List AlertRecipient
  deriving DecidableEq

/-- JSON body POSTed to the staff-alert webhook for one staff member. -/
structure WebhookPayload where
  staffName : String
  staffPhone : String
  alertMessage : String
  deriving DecidableEq

/-- Outcome of one `fetch` call as observed by the handler: the promise
resolves with an ok response, resolves with a non-ok response, or rejects. -/
inductive FetchResult where
  | ok
  | notOk
  | threw
  deriving DecidableEq

/-- The component's submit status state. -/
inductive SubmitStatus where
  | idle
  | success
  | error
  deriving DecidableEq

/-- Observable outcome of `handleConfirmAndSend`: the final submit status,
the alert log entry passed to `addAlertLog` (if any), and the webhook
request bodies that were fired. -/
structure SendResult where
  status : SubmitStatus
  log : Option AlertLog
  requests : List WebhookPayload
  deriving DecidableEq

/-- Truthiness of `s.phone`: the staff member has a phone number. -/
def hasPhone (s : Staff) : Bool :=
  s.phone ≠ ""

/-- The staff-alert submission handler.  `net i` is the outcome of the `i`-th
webhook request of the batch.  Mirrors `handleConfirmAndSend`: filter the
selected staff to those with a phone, bail out with an error when none
remain, fire one POST per target, await them all, and on an all-ok batch
persist an alert log (when a user and a department are present) and report
success; any rejection or non-ok response ends in the error status with no
log. -/
def handleConfirmAndSend (eventId : String) (user : Option User)
    (selectedDepartment : Option Department) (selectedStaffDetails : List Staff)
    (alertMessage : String) (net : Nat → FetchResult) : SendResult :=
  let targets := selectedStaffDetails.filter hasPhone
  if targets.length = 0 then
    { status := .error, log := none, requests := [] }
  else
    let requests := targets.map (fun staff =>
      { staffName := staff.name, staffPhone := staff.phone, alertMessage := alertMessage })
    let responses := (List.range requests.length).map net
    if responses.any (fun r => r = .threw) then
      { status := .error, log := none, requests := requests }
    else if responses.any (fun r => r ≠ .ok) then
      { status := .error, log := none, requests := requests }
    else
      { status := .success
        log :=
          match user, selectedDepartment with
          | some u, some d =>
            some { eventId := eventId, senderUserId := u.id, departmentId := some d.id,
                   message := alertMessage,
                   recipients := targets.map (fun s =>
                     { staffId := s.id, staffName := s.name, staffPhone := s.phone }) }
          | _, _ => none
        requests := requests }

/-- Observable outcome of `handleGroupAlertSend`. -/
structure GroupSendResult where
  status : SubmitStatus
  log : Option AlertLog
  deriving DecidableEq

/-- The group-alert submission handler: one POST to the group webhook; on an
ok response persist a log with the single `GROUP` recipient marker (when a
user is present) and report success, otherwise error with no log. -/
def handleGroupAlertSend (eventId : String) (user : Option User)
    (groupAlertMessage : String) (net : FetchResult) : GroupSendResult :=
  match net with
  | .threw => { status := .error, log := none }
  | .notOk => { status := .error, log := none }
  | .ok =>
    { status := .success
      log := user.map (fun u =>
        { eventId := eventId, senderUserId := u.id, departmentId := none,
          message := groupAlertMessage,
          recipients := [{ staffId := "GROUP", staffName := "Alerta para Grupo",
                           staffPhone := "" }] }) }

/-! ### Alert wizard state machine -/

/-- The state of the `EmitirAlertaView` component that drives the staff
wizard and the group form. -/
structure WizardState where
  step : Nat
  selectedDepartment : Option Department
  selectedStaffIds : List String
  alertMessage : String
  isConfirmModalOpen : Bool
  submitStatus : SubmitStatus
  groupAlertMessage : String
  isGroupConfirmModalOpen : Bool
  groupSubmitStatus : SubmitStatus
  deriving DecidableEq

/-- Initial component state: step 1, nothing selected, empty messages,
modals closed. -/
def initialWizardState : WizardState :=
  { step := 1, selectedDepartment := none, selectedStaffIds := [], alertMessage := "",
    isConfirmModalOpen := false, submitStatus := .idle,
    groupAlertMessage := "", isGroupConfirmModalOpen := false, groupSubmitStatus := .idle }

/-- User-interface events handled by the component. -/
inductive WizardEvent where
  | departmentSelect (d : Department)
  | staffToggle (staffId : String)
  | back
  | proceedToMessage
  | messageChange (m : String)
  | openConfirmModal
  | closeConfirmModal
  | groupMessageChange (m : String)
  | openGroupConfirmModal
  | closeGroupConfirmModal
  | backToChoice
  deriving DecidableEq

/-- The handler `handleStaffToggle`: remove the id when present in the set, add it
otherwise (a JavaScript `Set` keeps insertion order, so adding appends). -/
def toggleStaff (staffId : String) (ids : List String) : List String :=
  if staffId ∈ ids then ids.filter (fun i => i ≠ staffId) else ids ++ [staffId]

/-- The handler `resetStaffForm`. -/
def resetStaffForm (s : WizardState) : WizardState :=
  { s with
    step := 1
    selectedDepartment := none
    selectedStaffIds := []
    alertMessage := ""
    isConfirmModalOpen := false
    submitStatus := .idle }

/-- The handler `resetGroupForm`. -/
def resetGroupForm (s : WizardState) : WizardState :=
  { s with
    groupAlertMessage := ""
    isGroupConfirmModalOpen := false
    groupSubmitStatus := .idle }

/-- One step of the component: the effect of each handler on the state.
`openConfirmModal` and `openGroupConfirmModal` are guarded by the
truthiness of the trimmed message, `proceedToMessage` by a non-empty staff
selection, `back` by `step > 1`. -/
def wizardStep (s : WizardState) : WizardEvent → WizardState
  | .departmentSelect d =>
    { s with selectedDepartment := some d, selectedStaffIds := [], step := 2 }
  | .staffToggle staffId =>
    { s with selectedStaffIds := toggleStaff staffId s.selectedStaffIds }
  | .back => if 1 < s.step then { s with step := s.step - 1 } else s
  | .proceedToMessage =>
    if 0 < s.selectedStaffIds.length then { s with step := 3 } else s
  | .messageChange m => { s with alertMessage := m }
  | .openConfirmModal =>
    if trimNonempty s.alertMessage then { s with isConfirmModalOpen := true } else s
  | .closeConfirmModal => { s with isConfirmModalOpen := false }
  | .groupMessageChange m => { s with groupAlertMessage := m }
  | .openGroupConfirmModal =>
    if trimNonempty s.groupAlertMessage then { s with isGroupConfirmModalOpen := true }
    else s
  | .closeGroupConfirmModal => { s with isGroupConfirmModalOpen := false }
  | .backToChoice => resetGroupForm (resetStaffForm s)

/-- Run the component from its initial state through a list of events. -/
def runWizard (events : List WizardEvent) : WizardState :=
  events.foldl wizardStep initialWizardState

/-! ### Ranking view -/

/-- The predicate `isSameDay`: both strings non-empty and the timestamp starts with the
filter date (an ISO `YYYY-MM-DD` day is the prefix of an ISO timestamp on
that day). -/
def isSameDay (dateString filterDate : String) : Bool :=
  if dateString = "" ∨ filterDate = "" then false
  else strStartsWith dateString filterDate

/-- The memo `filteredReports`: all reports when the date filter is empty, otherwise
the reports of the selected day. -/
def filteredReports (dateFilter : String) (reports : List ReportSubmission) :
    List ReportSubmission :=
  if dateFilter = "" then reports
  else reports.filter (fun r => isSameDay r.timestamp dateFilter)

/-- The memo `filteredActivities`: the per-staff activity record with each list
filtered to the selected day (unchanged when the filter is empty). -/
def filteredActivities (dateFilter : String)
    (activities : List (String × List StaffActivity)) :
    List (String × List StaffActivity) :=
  if dateFilter = "" then activities
  else activities.map (fun p => (p.1, p.2.filter (fun a => isSameDay a.timestamp dateFilter)))

/-- The memo `filteredDetailedSales`: sales filtered by `updatedAt` on the selected
day (unchanged when the filter is empty). -/
def filteredDetailedSales (dateFilter : String) (sales : List DetailedSale) :
    List DetailedSale :=
  if dateFilter = "" then sales
  else sales.filter (fun s => isSameDay s.updatedAt dateFilter)

/-- Lookup `activities[staffId] || []` on the activity record. -/
def lookupActivities (activities : List (String × List StaffActivity))
    (staffId : String) : List StaffActivity :=
  match activities.find? (fun p => p.1 = staffId) with
  | some p => p.2
  | none => []

/-- Lookup `companyInfoMap[boothCode]`: the record is built by inserting each
company under its booth code, a later company overwriting an earlier one
with the same booth code, so a lookup returns the last match. -/
def companyInfoMap (companies : List ParticipantCompany) (boothCode : String) :
    Option ParticipantCompany :=
  companies.reverse.find? (fun c => c.boothCode = boothCode)

/-- The label `companyInfoMap[boothCode]?.name || boothCode`: the company name, unless
no company has the booth code or the name is falsy (empty). -/
def visitLabel (companies : List ParticipantCompany) (boothCode : String) : String :=
  match companyInfoMap companies boothCode with
  | some c => if c.name = "" then boothCode else c.name
  | none => boothCode

/-- The logo `companyInfoMap[boothCode]?.logoUrl`. -/
def visitLogo (companies : List ParticipantCompany) (boothCode : String) :
    Option String :=
  (companyInfoMap companies boothCode).bind (fun c => c.logoUrl)

/-- The JavaScript update `acc[k] = (acc[k] || 0) + 1` on an
insertion-ordered record of counts: bump the entry of `k` in place, or
append a fresh entry `(k, 1)`. -/
def bumpKey (k : String) : List (String × Nat) → List (String × Nat)
  | [] => [(k, 1)]
  | (k', n) :: rest =>
    if k' = k then (k', n + 1) :: rest else (k', n) :: bumpKey k rest

/-- Entries (`Object.entries`) of the record built by `l.reduce((acc, x) =>
{ acc[f x] = (acc[f x] || 0) + 1; return acc; }, {})`: keys in
first-insertion order with their final counts. -/
def groupCounts (f : α → String) (l : List α) : List (String × Nat) :=
  l.foldl (fun acc x => bumpKey (f x) acc) []

/-- The distinct elements of `l` in first-occurrence order (the key order of
a JavaScript record filled by inserting the elements of `l` in order). -/
def keysOf (l : List String) : List String :=
  l.foldl (fun acc k => if k ∈ acc then acc else acc ++ [k]) []

/-- The comparator `(a, b) => b.value - a.value`: descending chart value. -/
def chartGe (a b : ChartData) : Prop :=
  b.value ≤ a.value

instance : DecidableRel chartGe :=
  fun a b => Nat.decLe b.value a.value

instance : IsTotal ChartData chartGe :=
  ⟨fun a b => Nat.le_total b.value a.value⟩

instance : IsTrans ChartData chartGe :=
  ⟨fun _ _ _ h h' => Nat.le_trans h' h⟩

/-- The memo `visitsData`: count reports per booth code, label each group through the
company map with the booth code as fallback, and sort by descending count. -/
def visitsData (companies : List ParticipantCompany)
    (reports : List ReportSubmission) : List ChartData :=
  ((groupCounts (fun r => r.boothCode) reports).map (fun p =>
    { label := visitLabel companies p.1, value := p.2,
      logoUrl := visitLogo companies p.1 })).insertionSort chartGe

/-- A report label wrapped in double underscores marks an internal record
and is skipped by the occurrences ranking. -/
def isInternalLabel (label : String) : Bool :=
  strStartsWith label "__" && strEndsWith label "__"

/-- The reduce step of `occurrencesData`: skip internal labels, count the
rest. -/
def occCounts (reports : List ReportSubmission) : List (String × Nat) :=
  reports.foldl (fun acc r =>
    if isInternalLabel r.reportLabel then acc else bumpKey r.reportLabel acc) []

/-- The memo `occurrencesData`: count reports per (non-internal) label and sort by
descending count. -/
def occurrencesData (reports : List ReportSubmission) : List ChartData :=
  ((occCounts reports).map (fun p =>
    { label := p.1, value := p.2, logoUrl := none })).insertionSort chartGe

/-- The memo `staffData`: one bar per staff member valued by their activity count,
keeping only positive counts, sorted by descending count. -/
def staffData (activities : List (String × List StaffActivity))
    (staffList : List Staff) : List ChartData :=
  ((staffList.map (fun staff =>
    { label := staff.name, value := (lookupActivities activities staff.id).length,
      logoUrl := staff.photoUrl })).filter (fun item => 0 < item.value)).insertionSort
    chartGe

/-- The memo `totalSalesCount`: the length of the (date-filtered) sales list. -/
def totalSalesCount (sales : List DetailedSale) : Nat :=
  sales.length

/-- Truthy `sale.company?.id`: a company is present and its id is a
non-empty string. -/
def saleCompanyId (sale : DetailedSale) : Option String :=
  match sale.company with
  | some c => if c.id = "" then none else some c.id
  | none => none

/-- Truthy `sale.collaborator?.id`. -/
def saleCollaboratorId (sale : DetailedSale) : Option String :=
  match sale.collaborator with
  | some c => if c.id = "" then none else some c.id
  | none => none

/-- One row of the sales-by-company ranking. -/
structure RankedCompany where
  id : String
  name : String
  salesCount : Nat
  logoUrl : Option String
  deriving DecidableEq

/-- Descending sales count on company rows. -/
def companyGe (a b : RankedCompany) : Prop :=
  b.salesCount ≤ a.salesCount

instance : DecidableRel companyGe :=
  fun a b => Nat.decLe b.salesCount a.salesCount

instance : IsTotal RankedCompany companyGe :=
  ⟨fun a b => Nat.le_total b.salesCount a.salesCount⟩

instance : IsTrans RankedCompany companyGe :=
  ⟨fun _ _ _ h h' => Nat.le_trans h' h⟩

/-- The reduce step of `rankedCompaniesBySales`: count sales per (truthy)
company id. -/
def companySalesCounts (sales : List DetailedSale) : List (String × Nat) :=
  sales.foldl (fun acc sale =>
    match saleCompanyId sale with
    | some cid => bumpKey cid acc
    | none => acc) []

/-- Lookup `new Map(companies.map(c => [c.id, c])).get(cid)`: the last company with
this id wins. -/
def companyById (companies : List ParticipantCompany) (cid : String) :
    Option ParticipantCompany :=
  companies.reverse.find? (fun c => c.id = cid)

/-- The memo `rankedCompaniesBySales`: count sales per company id (null companies are
skipped), resolve each id against the company list, sort by descending
sales count. -/
def rankedCompaniesBySales (companies : List ParticipantCompany)
    (sales : List DetailedSale) : List RankedCompany :=
  ((companySalesCounts sales).map (fun p =>
    { id := p.1
      name :=
        match companyById companies p.1 with
        | some c => if c.name = "" then "Empresa Desconhecida" else c.name
        | none => "Empresa Desconhecida"
      salesCount := p.2
      logoUrl := (companyById companies p.1).bind (fun c => c.logoUrl) })).insertionSort
    companyGe

/-- One row of the sales-by-seller ranking. -/
structure RankedSeller where
  id : String
  name : String
  photoUrl : Option String
  collaboratorCode : String
  companyName : String
  companyId : String
  salesCount : Nat
  deriving DecidableEq

/-- Descending sales count on seller rows. -/
def sellerGe (a b : RankedSeller) : Prop :=
  b.salesCount ≤ a.salesCount

instance : DecidableRel sellerGe :=
  fun a b => Nat.decLe b.salesCount a.salesCount

instance : IsTotal RankedSeller sellerGe :=
  ⟨fun a b => Nat.le_total b.salesCount a.salesCount⟩

instance : IsTrans RankedSeller sellerGe :=
  ⟨fun _ _ _ h h' => Nat.le_trans h' h⟩

/-- The fresh accumulator row built from the spread of a sale's
collaborator, with `companyName` and `companyId` taken from the sale's
company and falling back (through `||`) to the string "N/A" when the
company is null or the field is empty, and a zero sales count. -/
def mkSeller (sale : DetailedSale) (collab : SaleCollaborator) : RankedSeller :=
  { id := collab.id, name := collab.name, photoUrl := collab.photoUrl,
    collaboratorCode := collab.collaboratorCode,
    companyName :=
      match sale.company with
      | some c => if c.name = "" then "N/A" else c.name
      | none => "N/A"
    companyId :=
      match sale.company with
      | some c => if c.id = "" then "N/A" else c.id
      | none => "N/A"
    salesCount := 0 }

/-- The update `acc[collabId].salesCount++` (creating the row first when
absent) on the insertion-ordered seller record. -/
def bumpSeller (sale : DetailedSale) (collab : SaleCollaborator) :
    List RankedSeller → List RankedSeller
  | [] => [{ mkSeller sale collab with salesCount := 1 }]
  | s :: rest =>
    if s.id = collab.id then { s with salesCount := s.salesCount + 1 } :: rest
    else s :: bumpSeller sale collab rest

/-- Values (`Object.values`) of the seller record built by the reduce of
`rankedSellers` (sales with no truthy collaborator id are skipped). -/
def allSellers (sales : List DetailedSale) : List RankedSeller :=
  sales.foldl (fun acc sale =>
    match sale.collaborator with
    | some collab => if collab.id = "" then acc else bumpSeller sale collab acc
    | none => acc) []

/-- The memo `rankedSellers`: all sellers (optionally restricted to one company) in
descending sales-count order. -/
def rankedSellers (sellerCompanyFilter : String) (sales : List DetailedSale) :
    List RankedSeller :=
  (if sellerCompanyFilter = "all" then allSellers sales
   else (allSellers sales).filter (fun s => s.companyId = sellerCompanyFilter)).insertionSort
    sellerGe

/-- Sum of the company rows' sales counts. -/
def companiesSalesSum (rows : List RankedCompany) : Nat :=
  (rows.map (fun r => r.salesCount)).sum

/-- Sum of the seller rows' sales counts. -/
def sellersSalesSum (rows : List RankedSeller) : Nat :=
  (rows.map (fun r => r.salesCount)).sum

/-! ### Properties of the record-of-counts embedding -/

theorem keysOf_append_singleton (l : List String) (k : String) :
    keysOf (l ++ [k]) = if k ∈ keysOf l then keysOf l else keysOf l ++ [k] := by
  simp [keysOf, List.foldl_append]

theorem mem_keysOf (l : List String) : ∀ a, a ∈ keysOf l ↔ a ∈ l := by
  induction l using List.reverseRecOn with
  | nil => simp [keysOf]
  | append_singleton l k ih =>
    intro a
    rw [keysOf_append_singleton]
    by_cases h : k ∈ keysOf l
    · rw [if_pos h]
      simp only [List.mem_append, List.mem_singleton, ih a]
      exact ⟨Or.inl, fun ha => ha.elim id (fun hak => hak ▸ (ih k).mp h)⟩
    · rw [if_neg h]
      simp [ih a]

theorem nodup_keysOf (l : List String) : (keysOf l).Nodup := by
  induction l using List.reverseRecOn with
  | nil => simp [keysOf]
  | append_singleton l k ih =>
    rw [keysOf_append_singleton]
    by_cases h : k ∈ keysOf l
    · simpa [h] using ih
    · rw [if_neg h]
      exact ih.append (List.nodup_singleton k)
        (fun a ha hk => h (by simpa using (List.mem_singleton.mp hk) ▸ ha))

theorem groupCounts_append_singleton (f : α → String) (l : List α) (x : α) :
    groupCounts f (l ++ [x]) = bumpKey (f x) (groupCounts f l) := by
  simp [groupCounts, List.foldl_append]

theorem bumpKey_of_forall_ne {k : String} {al : List (String × Nat)}
    (h : ∀ p ∈ al, p.1 ≠ k) : bumpKey k al = al ++ [(k, 1)] := by
  induction al with
  | nil => rfl
  | cons p rest ih =>
    obtain ⟨k', n⟩ := p
    have hk : k' ≠ k := h (k', n) (List.mem_cons_self _ _)
    simp only [bumpKey, if_neg hk, List.cons_append, List.cons.injEq, true_and]
    exact ih (fun q hq => h q (List.mem_cons_of_mem _ hq))

theorem bumpKey_map_of_mem {k : String} {K : List String} (c : String → Nat)
    (hnd : K.Nodup) (hk : k ∈ K) :
    bumpKey k (K.map (fun b => (b, c b))) =
      K.map (fun b => (b, if b = k then c b + 1 else c b)) := by
  induction K with
  | nil => cases hk
  | cons a K ih =>
    rcases List.mem_cons.mp hk with heq | hmem
    · subst heq
      have hne : ∀ b ∈ K, ¬(b = k) := fun b hb hbk =>
        (List.nodup_cons.mp hnd).1 (hbk ▸ hb)
      rw [List.map_cons, List.map_cons, bumpKey, if_pos rfl, if_pos rfl]
      refine congrArg (_ :: ·) ?_
      exact (List.map_congr_left (fun b hb => by rw [if_neg (hne b hb)])).symm
    · have hak : ¬(a = k) := fun hak => (List.nodup_cons.mp hnd).1 (hak ▸ hmem)
      rw [List.map_cons, List.map_cons, bumpKey, if_neg hak, if_neg hak]
      exact congrArg (_ :: ·) (ih (List.nodup_cons.mp hnd).2 hmem)

/-- The record built by counting `f` over `l` holds, for every distinct key
in first-occurrence order, the number of elements of `l` mapped to it. -/
theorem groupCounts_eq (f : α → String) (l : List α) :
    groupCounts f l =
      (keysOf (l.map f)).map (fun b => (b, l.countP (fun x => f x = b))) := by
  induction l using List.reverseRecOn with
  | nil => rfl
  | append_singleton l x ih =>
    have hmap : (l ++ [x]).map f = l.map f ++ [f x] := by simp
    have hcnt : ∀ b, (l ++ [x]).countP (fun y => f y = b) =
        l.countP (fun y => f y = b) + if f x = b then 1 else 0 := by
      intro b
      rw [List.countP_append]
      simp [List.countP_cons]
    rw [groupCounts_append_singleton, ih, hmap, keysOf_append_singleton]
    by_cases h : f x ∈ keysOf (l.map f)
    · rw [if_pos h, bumpKey_map_of_mem _ (nodup_keysOf _) h]
      refine List.map_congr_left (fun b hb => ?_)
      rw [hcnt b]
      by_cases hbk : b = f x
      · rw [if_pos hbk, if_pos (hbk ▸ rfl)]
      · rw [if_neg hbk, if_neg (fun hc => hbk hc.symm), Nat.add_zero]
    · rw [if_neg h]
      have hne : ∀ p ∈ (keysOf (l.map f)).map
          (fun b => (b, l.countP (fun y => f y = b))), p.1 ≠ f x := by
        intro p hp
        obtain ⟨b, hb, rfl⟩ := List.mem_map.mp hp
        exact fun hc => h (hc ▸ hb)
      rw [bumpKey_of_forall_ne hne, List.map_append, List.map_singleton]
      congr 1
      · refine List.map_congr_left (fun b hb => ?_)
        rw [hcnt b, if_neg (fun hc : f x = b => h (by rw [hc]; exact hb)), Nat.add_zero]
      · have h0 : l.countP (fun y => f y = f x) = 0 := by
          rw [List.countP_eq_zero]
          intro a ha
          simp only [decide_eq_true_eq]
          exact fun hc => h ((mem_keysOf _ _).mpr (hc ▸ List.mem_map_of_mem f ha))
        rw [hcnt (f x), h0, if_pos rfl]

/-- The counts recorded for the distinct keys add up to the list length. -/
theorem keysOf_countP_sum (L : List String) :
    ((keysOf L).map (fun b => L.countP (fun x => x = b))).sum = L.length := by
  have hperm : (keysOf L).Perm L.dedup :=
    (List.perm_ext_iff_of_nodup (nodup_keysOf L) L.nodup_dedup).mpr
      (fun a => (mem_keysOf L a).trans (List.mem_dedup).symm)
  have hcount : ∀ b, L.countP (fun x => x = b) = L.count b := by
    intro b
    rw [List.count_eq_countP]
    exact List.countP_congr (fun x _ => by simp)
  calc ((keysOf L).map (fun b => L.countP (fun x => x = b))).sum
      = (L.dedup.map (fun b => L.countP (fun x => x = b))).sum :=
        (hperm.map _).sum_eq
    _ = (L.dedup.map (fun b => L.count b)).sum := by
        simp only [hcount]
    _ = L.length := List.sum_map_count_dedup_eq_length L

/-- Skipping internal labels inside the reduce equals filtering them away
before counting. -/
theorem occCounts_eq_groupCounts (reports : List ReportSubmission) :
    occCounts reports =
      groupCounts (fun r => r.reportLabel)
        (reports.filter (fun r => !isInternalLabel r.reportLabel)) := by
  suffices h : ∀ (l : List ReportSubmission) (acc : List (String × Nat)),
      l.foldl (fun acc r =>
        if isInternalLabel r.reportLabel then acc else bumpKey r.reportLabel acc) acc =
      (l.filter (fun r => !isInternalLabel r.reportLabel)).foldl
        (fun acc r => bumpKey r.reportLabel acc) acc by
    exact h reports []
  intro l
  induction l with
  | nil => intro _; rfl
  | cons r rest ih =>
    intro acc
    by_cases hr : isInternalLabel r.reportLabel <;>
      simp [List.filter_cons, hr, ih]

/-- Skipping null companies inside the reduce equals counting the truthy
company ids. -/
theorem companySalesCounts_eq (sales : List DetailedSale) :
    companySalesCounts sales = groupCounts id (sales.filterMap saleCompanyId) := by
  suffices h : ∀ (l : List DetailedSale) (acc : List (String × Nat)),
      l.foldl (fun acc sale =>
        match saleCompanyId sale with
        | some cid => bumpKey cid acc
        | none => acc) acc =
      (l.filterMap saleCompanyId).foldl (fun acc k => bumpKey (id k) acc) acc by
    exact h sales []
  intro l
  induction l with
  | nil => intro _; rfl
  | cons s rest ih =>
    intro acc
    cases hs : saleCompanyId s <;> simp [List.filterMap_cons, hs, ih]

/-- A sale with a null company is invisible to the company counts. -/
theorem companySalesCounts_filter (sales : List DetailedSale) :
    companySalesCounts (sales.filter (fun s => s.company.isSome)) =
      companySalesCounts sales := by
  rw [companySalesCounts_eq, companySalesCounts_eq]
  have h : (sales.filter (fun s => s.company.isSome)).filterMap saleCompanyId =
      sales.filterMap saleCompanyId := by
    induction sales with
    | nil => rfl
    | cons s rest ih =>
      cases hc : s.company with
      | none =>
        simp [List.filter_cons, hc, List.filterMap_cons, saleCompanyId, ih]
      | some c =>
        simp [List.filter_cons, hc, List.filterMap_cons, saleCompanyId, ih]
  rw [h]

/-- A sale with a null collaborator is invisible to the seller rows. -/
theorem allSellers_filter (sales : List DetailedSale) :
    allSellers (sales.filter (fun s => s.collaborator.isSome)) = allSellers sales := by
  suffices h : ∀ (l : List DetailedSale) (acc : List RankedSeller),
      ((l.filter (fun s => s.collaborator.isSome)).foldl (fun acc sale =>
        match sale.collaborator with
        | some collab => if collab.id = "" then acc else bumpSeller sale collab acc
        | none => acc) acc) =
      l.foldl (fun acc sale =>
        match sale.collaborator with
        | some collab => if collab.id = "" then acc else bumpSeller sale collab acc
        | none => acc) acc by
    exact h sales []
  intro l
  induction l with
  | nil => intro _; rfl
  | cons s rest ih =>
    intro acc
    cases hc : s.collaborator <;> simp [List.filter_cons, hc, ih]

/-- Bumping a seller row adds one to the total of the sales counts. -/
theorem bumpSeller_sum (sale : DetailedSale) (collab : SaleCollaborator)
    (acc : List RankedSeller) :
    ((bumpSeller sale collab acc).map (fun r => r.salesCount)).sum =
      (acc.map (fun r => r.salesCount)).sum + 1 := by
  induction acc with
  | nil => rfl
  | cons s rest ih =>
    by_cases hs : s.id = collab.id
    · simp only [bumpSeller, if_pos hs, List.map_cons, List.sum_cons]
      omega
    · simp only [bumpSeller, if_neg hs, List.map_cons, List.sum_cons, ih]
      omega

/-- The seller rows' sales counts add up to the number of sales with a
truthy collaborator id. -/
theorem allSellers_sum (sales : List DetailedSale) :
    ((allSellers sales).map (fun r => r.salesCount)).sum =
      sales.countP (fun s => (saleCollaboratorId s).isSome) := by
  suffices h : ∀ (l : List DetailedSale) (acc : List RankedSeller),
      ((l.foldl (fun acc sale =>
        match sale.collaborator with
        | some collab => if collab.id = "" then acc else bumpSeller sale collab acc
        | none => acc) acc).map (fun r => r.salesCount)).sum =
      (acc.map (fun r => r.salesCount)).sum +
        l.countP (fun s => (saleCollaboratorId s).isSome) by
    simpa using h sales []
  intro l
  induction l with
  | nil => intro _; simp
  | cons s rest ih =>
    intro acc
    cases hc : s.collaborator with
    | none =>
      simp only [List.foldl_cons, hc, List.countP_cons, saleCollaboratorId, hc]
      rw [ih]
      simp [saleCollaboratorId, hc]
    | some collab =>
      by_cases hid : collab.id = ""
      · simp only [List.foldl_cons, hc, if_pos hid]
        rw [ih]
        simp [List.countP_cons, saleCollaboratorId, hc, hid]
      · simp only [List.foldl_cons, hc, if_neg hid]
        rw [ih, bumpSeller_sum]
        simp only [List.countP_cons, saleCollaboratorId, hc, hid]
        simp [hid]
        omega

/-- The length of a `filterMap` is the count of elements it keeps. -/
theorem length_filterMap_eq_countP (f : α → Option β) (l : List α) :
    (l.filterMap f).length = l.countP (fun a => (f a).isSome) := by
  induction l with
  | nil => rfl
  | cons a l ih =>
    cases h : f a <;> simp [List.filterMap_cons, h, List.countP_cons, ih]

/-- The company rows' sales counts add up to the number of sales with a
truthy company id. -/
theorem companySalesCounts_sum (sales : List DetailedSale) :
    ((companySalesCounts sales).map (fun p => p.2)).sum =
      sales.countP (fun s => (saleCompanyId s).isSome) := by
  rw [companySalesCounts_eq, groupCounts_eq, List.map_map]
  have h1 : ((sales.filterMap saleCompanyId).map id) = sales.filterMap saleCompanyId :=
    List.map_id _
  rw [h1]
  have h2 : ((fun p : String × Nat => p.2) ∘
      (fun b => (b, (sales.filterMap saleCompanyId).countP (fun x => id x = b)))) =
      (fun b => (sales.filterMap saleCompanyId).countP (fun x => x = b)) := by
    funext b
    simp [id]
  rw [h2, keysOf_countP_sum, length_filterMap_eq_countP]

/-- Filtering a list of chart bars keyed by distinct labels picks at most
one bar. -/
theorem filter_key_chart (K : List String) (c : String → Nat) (lab : String)
    (hnd : K.Nodup) :
    (K.map (fun b => ChartData.mk b (c b) none)).filter (fun e => e.label = lab) =
      if lab ∈ K then [ChartData.mk lab (c lab) none] else [] := by
  induction K with
  | nil => simp
  | cons a K ih =>
    have hndK := (List.nodup_cons.mp hnd).2
    by_cases hal : a = lab
    · subst hal
      have hnmem : a ∉ K := (List.nodup_cons.mp hnd).1
      simp [List.filter_cons, ih hndK, hnmem]
    · have hne : lab ≠ a := fun h => hal h.symm
      simp [List.filter_cons, hal, ih hndK, hne]

/-- Unfolding one entry of the activity record lookup. -/
theorem lookupActivities_cons (k : String) (v : List StaffActivity)
    (rest : List (String × List StaffActivity)) (sid : String) :
    lookupActivities ((k, v) :: rest) sid =
      if k = sid then v else lookupActivities rest sid := by
  by_cases hk : k = sid
  · simp [lookupActivities, List.find?_cons, hk]
  · simp [lookupActivities, List.find?_cons, hk]

/-- Looking a staff id up after filtering every activity list filters that
staff member's activities. -/
theorem lookupActivities_map_filter (acts : List (String × List StaffActivity))
    (p : StaffActivity → Bool) (sid : String) :
    lookupActivities (acts.map (fun q => (q.1, q.2.filter p))) sid =
      (lookupActivities acts sid).filter p := by
  induction acts with
  | nil => rfl
  | cons q rest ih =>
    obtain ⟨k, v⟩ := q
    rw [List.map_cons, lookupActivities_cons, lookupActivities_cons]
    by_cases hk : k = sid
    · rw [if_pos hk, if_pos hk]
    · rw [if_neg hk, if_neg hk, ih]

/-- Every wizard event keeps the step between 1 and 3. -/
theorem wizardStep_step_bounds {s : WizardState} (h1 : 1 ≤ s.step) (h3 : s.step ≤ 3)
    (e : WizardEvent) : 1 ≤ (wizardStep s e).step ∧ (wizardStep s e).step ≤ 3 := by
  cases e <;>
    first
      | exact ⟨h1, h3⟩
      | exact ⟨Nat.le_refl 1, by omega⟩
      | (simp only [wizardStep]
         split <;> first | exact ⟨h1, h3⟩ | (constructor <;> simp <;> omega))
      | (refine ⟨?_, ?_⟩ <;> simp [wizardStep, resetStaffForm, resetGroupForm])

/-- The reachable wizard states keep the step between 1 and 3. -/
theorem runWizard_step_bounds (events : List WizardEvent) :
    1 ≤ (runWizard events).step ∧ (runWizard events).step ≤ 3 := by
  suffices h : ∀ (l : List WizardEvent) (s : WizardState), 1 ≤ s.step → s.step ≤ 3 →
      1 ≤ (l.foldl wizardStep s).step ∧ (l.foldl wizardStep s).step ≤ 3 by
    exact h events initialWizardState (by decide) (by decide)
  intro l
  induction l with
  | nil => exact fun s h1 h3 => ⟨h1, h3⟩
  | cons e rest ih =>
    intro s h1 h3
    exact ih _ (wizardStep_step_bounds h1 h3 e).1 (wizardStep_step_bounds h1 h3 e).2

/-! ### Claim theorems -/

/-- C1: in the staff alert flow (a department selected and a user signed
in), confirming the send ends in either the success or the error terminal
status; an alert log entry is persisted exactly when the flow succeeds, and
it succeeds exactly when some selected staff member has a phone number and
every webhook request of the batch came back ok — any failure (no target
with a phone, a rejected fetch, or a non-ok response) ends in the error
status with no alert log. -/
theorem staff_alert_log_iff (eventId : String) (u : User) (d : Department)
    (staffDetails : List Staff) (msg : String) (net : Nat → FetchResult) :
    ((handleConfirmAndSend eventId (some u) (some d) staffDetails msg net).log.isSome ↔
      (handleConfirmAndSend eventId (some u) (some d) staffDetails msg net).status =
        .success) ∧
    ((handleConfirmAndSend eventId (some u) (some d) staffDetails msg net).status =
        .success ∨
      (handleConfirmAndSend eventId (some u) (some d) staffDetails msg net).status =
        .error) ∧
    ((handleConfirmAndSend eventId (some u) (some d) staffDetails msg net).status =
        .success ↔
      staffDetails.filter hasPhone ≠ [] ∧
        ∀ i < (staffDetails.filter hasPhone).length, net i = FetchResult.ok) := by
  simp only [handleConfirmAndSend, List.length_map]
  split_ifs with h1 h2 h3
  · refine ⟨by simp, Or.inr rfl, ?_⟩
    rw [List.length_eq_zero] at h1
    simp [h1]
  · refine ⟨by simp, Or.inr rfl, ?_⟩
    obtain ⟨x, hx, hxt⟩ := List.any_eq_true.mp h2
    obtain ⟨i, hi, rfl⟩ := List.mem_map.mp hx
    rw [List.mem_range] at hi
    simp only [decide_eq_true_eq] at hxt
    constructor
    · intro hcon; exact absurd hcon (by simp)
    · rintro ⟨-, hall⟩
      rw [hall i hi] at hxt
      exact absurd hxt (by simp)
  · refine ⟨by simp, Or.inr rfl, ?_⟩
    obtain ⟨x, hx, hxt⟩ := List.any_eq_true.mp h3
    obtain ⟨i, hi, rfl⟩ := List.mem_map.mp hx
    rw [List.mem_range] at hi
    simp only [decide_eq_true_eq] at hxt
    constructor
    · intro hcon; exact absurd hcon (by simp)
    · rintro ⟨-, hall⟩
      exact hxt (hall i hi)
  · refine ⟨by simp, Or.inl rfl, ?_⟩
    constructor
    · intro _
      refine ⟨fun hnil => h1 (by rw [hnil]; rfl), fun i hi => ?_⟩
      have hmem : net i ∈ (List.range (staffDetails.filter hasPhone).length).map net :=
        List.mem_map_of_mem net (List.mem_range.mpr hi)
      by_contra hne
      exact h3 (List.any_eq_true.mpr ⟨net i, hmem, by simpa using hne⟩)
    · intro _
      rfl

/-- Witness for C1 at a concrete input. -/
theorem staff_alert_log_iff_witness :
    (handleConfirmAndSend "e" (some ⟨"u", "U"⟩) (some ⟨"d", "D"⟩)
      [⟨"s1", "Ana", "555", "d", none⟩] "hello" (fun _ => .ok)).status = .success := by
  have h := (staff_alert_log_iff "e" ⟨"u", "U"⟩ ⟨"d", "D"⟩
    [⟨"s1", "Ana", "555", "d", none⟩] "hello" (fun _ => .ok)).2.2
  exact h.mpr ⟨by decide, fun i _ => rfl⟩

/-- C2: confirming the staff alert fires exactly one webhook request per
selected staff member with a phone number, in order, each carrying that
member's name and phone and the composed message; selected members without
a phone produce no request (every fired request carries a non-empty
phone). -/
theorem webhook_requests_spec (eventId : String) (user : Option User)
    (dept : Option Department) (staffDetails : List Staff) (msg : String)
    (net : Nat → FetchResult) :
    (handleConfirmAndSend eventId user dept staffDetails msg net).requests =
      (staffDetails.filter hasPhone).map (fun s =>
        { staffName := s.name, staffPhone := s.phone, alertMessage := msg }) ∧
    ∀ p ∈ (handleConfirmAndSend eventId user dept staffDetails msg net).requests,
      p.staffPhone ≠ "" := by
  have hreq : (handleConfirmAndSend eventId user dept staffDetails msg net).requests =
      (staffDetails.filter hasPhone).map (fun s =>
        { staffName := s.name, staffPhone := s.phone, alertMessage := msg }) := by
    simp only [handleConfirmAndSend]
    split_ifs with h1 h2 h3
    · rw [List.length_eq_zero] at h1
      simp [h1]
    · rfl
    · rfl
    · rfl
  refine ⟨hreq, ?_⟩
  intro p hp
  rw [hreq] at hp
  obtain ⟨s, hs, rfl⟩ := List.mem_map.mp hp
  have hph := (List.mem_filter.mp hs).2
  simpa [hasPhone] using hph

/-- Witness for C2 at a concrete input: the phoneless staff member gets no
request. -/
theorem webhook_requests_spec_witness :
    (handleConfirmAndSend "e" (some ⟨"u", "U"⟩) (some ⟨"d", "D"⟩)
      [⟨"s1", "Ana", "555", "d", none⟩, ⟨"s2", "Bob", "", "d", none⟩] "hello"
      (fun _ => .ok)).requests = [⟨"Ana", "555", "hello"⟩] :=
  ((webhook_requests_spec "e" (some ⟨"u", "U"⟩) (some ⟨"d", "D"⟩)
    [⟨"s1", "Ana", "555", "d", none⟩, ⟨"s2", "Bob", "", "d", none⟩] "hello"
    (fun _ => .ok)).1).trans (by decide)

/-- C5: a persisted staff-alert log carries the event id, the sender's user
id, the selected department's id, the message, and one recipient (staff id,
name, phone) per targeted staff member; a persisted group-alert log carries
no department and the single `GROUP` recipient marker with an empty
phone. -/
theorem alert_log_contents (eventId : String) (u : User) (d : Department)
    (staffDetails : List Staff) (msg gmsg : String) (net : Nat → FetchResult)
    (gnet : FetchResult) :
    (∀ L, (handleConfirmAndSend eventId (some u) (some d) staffDetails msg net).log =
        some L →
      L.eventId = eventId ∧ L.senderUserId = u.id ∧ L.departmentId = some d.id ∧
        L.message = msg ∧
        L.recipients = (staffDetails.filter hasPhone).map (fun s =>
          { staffId := s.id, staffName := s.name, staffPhone := s.phone })) ∧
    (∀ L, (handleGroupAlertSend eventId (some u) gmsg gnet).log = some L →
      L.eventId = eventId ∧ L.senderUserId = u.id ∧ L.departmentId = none ∧
        L.message = gmsg ∧
        L.recipients = [{ staffId := "GROUP", staffName := "Alerta para Grupo",
                          staffPhone := "" }]) := by
  constructor
  · intro L hL
    simp only [handleConfirmAndSend] at hL
    split_ifs at hL
    all_goals first
      | (simp at hL; done)
      | (rw [← hL]; exact ⟨rfl, rfl, rfl, rfl, rfl⟩)
      | (dsimp only at hL; rw [Option.some_inj] at hL; rw [← hL]
         exact ⟨rfl, rfl, rfl, rfl, rfl⟩)
  · intro L hL
    cases gnet with
    | ok =>
      simp only [handleGroupAlertSend, Option.map_some', Option.some.injEq] at hL
      subst hL
      simp
    | notOk => simp [handleGroupAlertSend] at hL
    | threw => simp [handleGroupAlertSend] at hL

/-- C6: the wizard's step counter stays in {1, 2, 3} along every event
sequence; selecting a department always lands on step 2 with a cleared
staff selection; a transition from step 2 to step 3 requires a non-empty
staff selection; going back from a step above 1 decrements the step by
exactly one and the step never drops below 1. -/
theorem wizard_step_invariants :
    (∀ events : List WizardEvent, (runWizard events).step = 1 ∨
      (runWizard events).step = 2 ∨ (runWizard events).step = 3) ∧
    (∀ (s : WizardState) (d : Department),
      (wizardStep s (.departmentSelect d)).step = 2 ∧
      (wizardStep s (.departmentSelect d)).selectedStaffIds = []) ∧
    (∀ (s : WizardState) (e : WizardEvent),
      s.step = 2 → (wizardStep s e).step = 3 → s.selectedStaffIds ≠ []) ∧
    (∀ s : WizardState, 1 < s.step → (wizardStep s .back).step = s.step - 1) ∧
    (∀ s : WizardState, 1 ≤ s.step → 1 ≤ (wizardStep s .back).step) := by
  refine ⟨?_, ?_, ?_, ?_, ?_⟩
  · intro events
    have h := runWizard_step_bounds events
    omega
  · intro s d
    exact ⟨rfl, rfl⟩
  · intro s e h2 h3
    cases e with
    | proceedToMessage =>
      simp only [wizardStep] at h3
      by_cases hl : 0 < s.selectedStaffIds.length
      · exact List.length_pos.mp hl
      · rw [if_neg hl] at h3
        omega
    | back =>
      simp only [wizardStep] at h3
      split at h3 <;> (try dsimp only at h3) <;> omega
    | openConfirmModal =>
      simp only [wizardStep] at h3
      split at h3 <;> (try dsimp only at h3) <;> omega
    | openGroupConfirmModal =>
      simp only [wizardStep] at h3
      split at h3 <;> (try dsimp only at h3) <;> omega
    | departmentSelect d => simp only [wizardStep] at h3 <;> omega
    | staffToggle i => simp only [wizardStep] at h3 <;> omega
    | messageChange m => simp only [wizardStep] at h3 <;> omega
    | closeConfirmModal => simp only [wizardStep] at h3 <;> omega
    | groupMessageChange m => simp only [wizardStep] at h3 <;> omega
    | closeGroupConfirmModal => simp only [wizardStep] at h3 <;> omega
    | backToChoice =>
      simp only [wizardStep, resetStaffForm, resetGroupForm] at h3 <;> omega
  · intro s hs
    simp only [wizardStep]
    rw [if_pos hs]
  · intro s hs
    simp only [wizardStep]
    split <;> (try dsimp only) <;> omega

/-- Witness for C6 at a concrete state: going back from step 3 lands on
step 2. -/
theorem wizard_step_invariants_witness :
    (wizardStep { initialWizardState with step := 3 } .back).step = 2 :=
  wizard_step_invariants.2.2.2.1 { initialWizardState with step := 3 } (by decide)

/-- C7: neither confirmation modal ever opens on a message whose trimmed
form is empty — whenever a step turns a closed modal into an open one, the
message at that moment has a non-whitespace character. -/
theorem confirm_modal_guard :
    (∀ (s : WizardState) (e : WizardEvent), s.isConfirmModalOpen = false →
      (wizardStep s e).isConfirmModalOpen = true →
      trimNonempty (wizardStep s e).alertMessage = true) ∧
    (∀ (s : WizardState) (e : WizardEvent), s.isGroupConfirmModalOpen = false →
      (wizardStep s e).isGroupConfirmModalOpen = true →
      trimNonempty (wizardStep s e).groupAlertMessage = true) := by
  constructor
  · intro s e hclosed hopen
    cases e with
    | openConfirmModal =>
      by_cases hm : trimNonempty s.alertMessage = true
      · simp only [wizardStep, if_pos hm]
        exact hm
      · simp only [wizardStep, if_neg hm] at hopen
        rw [hclosed] at hopen
        exact absurd hopen (by simp)
    | openGroupConfirmModal =>
      simp only [wizardStep] at hopen
      split at hopen <;> (rw [hclosed] at hopen; exact absurd hopen (by simp))
    | back =>
      simp only [wizardStep] at hopen
      split at hopen <;> (rw [hclosed] at hopen; exact absurd hopen (by simp))
    | proceedToMessage =>
      simp only [wizardStep] at hopen
      split at hopen <;> (rw [hclosed] at hopen; exact absurd hopen (by simp))
    | departmentSelect d =>
      simp only [wizardStep] at hopen
      rw [hclosed] at hopen
      exact absurd hopen (by simp)
    | staffToggle i =>
      simp only [wizardStep] at hopen
      rw [hclosed] at hopen
      exact absurd hopen (by simp)
    | messageChange m =>
      simp only [wizardStep] at hopen
      rw [hclosed] at hopen
      exact absurd hopen (by simp)
    | groupMessageChange m =>
      simp only [wizardStep] at hopen
      rw [hclosed] at hopen
      exact absurd hopen (by simp)
    | closeConfirmModal =>
      simp only [wizardStep] at hopen
      exact absurd hopen (by simp)
    | closeGroupConfirmModal =>
      simp only [wizardStep] at hopen
      rw [hclosed] at hopen
      exact absurd hopen (by simp)
    | backToChoice =>
      simp only [wizardStep, resetStaffForm, resetGroupForm] at hopen
      exact absurd hopen (by simp)
  · intro s e hclosed hopen
    cases e with
    | openGroupConfirmModal =>
      by_cases hm : trimNonempty s.groupAlertMessage = true
      · simp only [wizardStep, if_pos hm]
        exact hm
      · simp only [wizardStep, if_neg hm] at hopen
        rw [hclosed] at hopen
        exact absurd hopen (by simp)
    | openConfirmModal =>
      simp only [wizardStep] at hopen
      split at hopen <;> (rw [hclosed] at hopen; exact absurd hopen (by simp))
    | back =>
      simp only [wizardStep] at hopen
      split at hopen <;> (rw [hclosed] at hopen; exact absurd hopen (by simp))
    | proceedToMessage =>
      simp only [wizardStep] at hopen
      split at hopen <;> (rw [hclosed] at hopen; exact absurd hopen (by simp))
    | departmentSelect d =>
      simp only [wizardStep] at hopen
      rw [hclosed] at hopen
      exact absurd hopen (by simp)
    | staffToggle i =>
      simp only [wizardStep] at hopen
      rw [hclosed] at hopen
      exact absurd hopen (by simp)
    | messageChange m =>
      simp only [wizardStep] at hopen
      rw [hclosed] at hopen
      exact absurd hopen (by simp)
    | groupMessageChange m =>
      simp only [wizardStep] at hopen
      rw [hclosed] at hopen
      exact absurd hopen (by simp)
    | closeConfirmModal =>
      simp only [wizardStep] at hopen
      rw [hclosed] at hopen
      exact absurd hopen (by simp)
    | closeGroupConfirmModal =>
      simp only [wizardStep] at hopen
      exact absurd hopen (by simp)
    | backToChoice =>
      simp only [wizardStep, resetStaffForm, resetGroupForm] at hopen
      exact absurd hopen (by simp)

/-- Witness for C7 at a concrete state. -/
theorem confirm_modal_guard_witness :
    trimNonempty (wizardStep { initialWizardState with alertMessage := "hi" }
      .openConfirmModal).alertMessage = true :=
  confirm_modal_guard.1 { initialWizardState with alertMessage := "hi" }
    .openConfirmModal rfl (by decide)

/-- Witness for C5 at a concrete input. -/
theorem alert_log_contents_witness :
    ({ eventId := "e", senderUserId := "u", departmentId := some "d", message := "hello",
       recipients := [⟨"s1", "Ana", "555"⟩] } : AlertLog).message = "hello" :=
  ((alert_log_contents "e" ⟨"u", "U"⟩ ⟨"d", "D"⟩ [⟨"s1", "Ana", "555", "d", none⟩]
    "hello" "g" (fun _ => .ok) .ok).1 _ rfl).2.2.2.1


/-- C4: with a date filter set, each filtered collection keeps exactly the
records whose timestamp is on the selected day (`isSameDay`: the ISO day is
a prefix of the timestamp); with an empty filter every fetched record is
kept unchanged.  The four rankings consume exactly these filtered
collections. -/
theorem date_filter_spec (d : String) (reports : List ReportSubmission)
    (activities : List (String × List StaffActivity)) (sales : List DetailedSale) :
    (d = "" → filteredReports d reports = reports ∧
      filteredActivities d activities = activities ∧
      filteredDetailedSales d sales = sales) ∧
    (d ≠ "" →
      (∀ r, r ∈ filteredReports d reports ↔
        r ∈ reports ∧ isSameDay r.timestamp d = true) ∧
      (∀ sid a, a ∈ lookupActivities (filteredActivities d activities) sid ↔
        a ∈ lookupActivities activities sid ∧ isSameDay a.timestamp d = true) ∧
      (∀ s, s ∈ filteredDetailedSales d sales ↔
        s ∈ sales ∧ isSameDay s.updatedAt d = true)) := by
  constructor
  · intro hd
    exact ⟨by simp [filteredReports, hd], by simp [filteredActivities, hd],
      by simp [filteredDetailedSales, hd]⟩
  · intro hd
    refine ⟨?_, ?_, ?_⟩
    · intro r
      simp [filteredReports, hd, List.mem_filter]
    · intro sid a
      rw [filteredActivities, if_neg hd, lookupActivities_map_filter]
      simp [List.mem_filter]
    · intro s
      simp [filteredDetailedSales, hd, List.mem_filter]

/-- Witness for C4 at a concrete input. -/
theorem date_filter_spec_witness :
    (⟨"B1", "v", "2024-01-02T10:00"⟩ : ReportSubmission) ∈
      filteredReports "2024-01-02" [⟨"B1", "v", "2024-01-02T10:00"⟩] :=
  (((date_filter_spec "2024-01-02" [⟨"B1", "v", "2024-01-02T10:00"⟩] [] []).2
    (by decide)).1 ⟨"B1", "v", "2024-01-02T10:00"⟩).mpr
    ⟨List.mem_singleton.mpr rfl, by decide⟩

/-- C10: the staff-activity ranking lists only staff with a strictly
positive (date-filtered) activity count, sorted by descending count; it is,
up to order, exactly one bar per staff member with a positive count — staff
with zero activities are omitted rather than shown with a zero. -/
theorem staff_ranking_positive (d : String)
    (activities : List (String × List StaffActivity)) (staffList : List Staff) :
    (∀ e ∈ staffData (filteredActivities d activities) staffList, 0 < e.value) ∧
    List.Sorted (fun a b => b.value ≤ a.value)
      (staffData (filteredActivities d activities) staffList) ∧
    List.Perm (staffData (filteredActivities d activities) staffList)
      ((staffList.filter (fun s =>
        0 < (lookupActivities (filteredActivities d activities) s.id).length)).map
        (fun s => { label := s.name
                    value := (lookupActivities (filteredActivities d activities) s.id).length
                    logoUrl := s.photoUrl })) := by
  refine ⟨?_, List.sorted_insertionSort chartGe _, ?_⟩
  · intro e he
    rw [staffData, List.mem_insertionSort] at he
    have hpos := (List.mem_filter.mp he).2
    simpa using hpos
  · refine (List.perm_insertionSort chartGe _).trans ?_
    rw [List.filter_map]
    rfl

/-- Witness for C10 at a concrete input. -/
theorem staff_ranking_positive_witness :
    0 < (ChartData.mk "Ana" 2 none).value :=
  (staff_ranking_positive "" [("s1", [⟨"t1"⟩, ⟨"t2"⟩])]
    [⟨"s1", "Ana", "555", "d", none⟩]).1 (ChartData.mk "Ana" 2 none) (by decide)

/-- C9: a sale with a null company (resp. null collaborator) is counted by
`totalSalesCount` but contributes to no entry of the sales-by-company
(resp. sales-by-seller) ranking — dropping those sales leaves the rankings
unchanged — so the per-company and per-seller counts sum to at most the
displayed total, and to strictly less as soon as such a sale exists. -/
theorem sales_null_handling (companies : List ParticipantCompany)
    (sales : List DetailedSale) :
    rankedCompaniesBySales companies (sales.filter (fun s => s.company.isSome)) =
      rankedCompaniesBySales companies sales ∧
    rankedSellers "all" (sales.filter (fun s => s.collaborator.isSome)) =
      rankedSellers "all" sales ∧
    companiesSalesSum (rankedCompaniesBySales companies sales) ≤
      totalSalesCount sales ∧
    ((∃ s ∈ sales, s.company = none) →
      companiesSalesSum (rankedCompaniesBySales companies sales) <
        totalSalesCount sales) ∧
    ((∃ s ∈ sales, s.collaborator = none) →
      sellersSalesSum (rankedSellers "all" sales) < totalSalesCount sales) := by
  have hcsum : companiesSalesSum (rankedCompaniesBySales companies sales) =
      sales.countP (fun s => (saleCompanyId s).isSome) := by
    rw [companiesSalesSum, rankedCompaniesBySales]
    rw [((List.perm_insertionSort companyGe _).map (fun r => r.salesCount)).sum_eq]
    rw [List.map_map]
    exact companySalesCounts_sum sales
  have hssum : sellersSalesSum (rankedSellers "all" sales) =
      sales.countP (fun s => (saleCollaboratorId s).isSome) := by
    rw [sellersSalesSum, rankedSellers, if_pos rfl]
    rw [((List.perm_insertionSort sellerGe _).map (fun r => r.salesCount)).sum_eq]
    exact allSellers_sum sales
  refine ⟨?_, ?_, ?_, ?_, ?_⟩
  · rw [rankedCompaniesBySales, rankedCompaniesBySales, companySalesCounts_filter]
  · rw [rankedSellers, rankedSellers, if_pos rfl, if_pos rfl, allSellers_filter]
  · rw [hcsum, totalSalesCount]
    exact List.countP_le_length _
  · rintro ⟨s0, hs0, hnone⟩
    rw [hcsum, totalSalesCount]
    have hnot : 0 < sales.countP (fun s => !(saleCompanyId s).isSome) := by
      refine List.countP_pos_iff.mpr ⟨s0, hs0, ?_⟩
      simp [saleCompanyId, hnone]
    have := List.length_eq_countP_add_countP
      (fun s => (saleCompanyId s).isSome) sales
    have hsplit : sales.countP (fun s => decide ¬((saleCompanyId s).isSome = true)) =
        sales.countP (fun s => !(saleCompanyId s).isSome) :=
      List.countP_congr (fun x _ => by simp)
    omega
  · rintro ⟨s0, hs0, hnone⟩
    rw [hssum, totalSalesCount]
    have hnot : 0 < sales.countP (fun s => !(saleCollaboratorId s).isSome) := by
      refine List.countP_pos_iff.mpr ⟨s0, hs0, ?_⟩
      simp [saleCollaboratorId, hnone]
    have := List.length_eq_countP_add_countP
      (fun s => (saleCollaboratorId s).isSome) sales
    have hsplit : sales.countP (fun s => decide ¬((saleCollaboratorId s).isSome = true)) =
        sales.countP (fun s => !(saleCollaboratorId s).isSome) :=
      List.countP_congr (fun x _ => by simp)
    omega

/-- Witness for C9 at a concrete input with a company-less sale. -/
theorem sales_null_handling_witness :
    companiesSalesSum (rankedCompaniesBySales []
      [⟨"m", "mod", "t", none, none⟩]) <
      totalSalesCount [⟨"m", "mod", "t", none, none⟩] :=
  (sales_null_handling [] [⟨"m", "mod", "t", none, none⟩]).2.2.2.1
    ⟨⟨"m", "mod", "t", none, none⟩, List.mem_singleton.mpr rfl, rfl⟩

/-- C8: the occurrences ranking omits every report whose label both starts
and ends with a double underscore; each other label appears at most once,
valued by the number of reports bearing it (present exactly when that
number is positive), and the ranking is sorted by descending count. -/
theorem occurrences_excludes_internal (reports : List ReportSubmission) :
    List.Sorted (fun a b => b.value ≤ a.value) (occurrencesData reports) ∧
    ∀ lab : String,
      ((occurrencesData reports).filter (fun e => e.label = lab)).map
        (fun e => e.value) =
      (if isInternalLabel lab = false ∧
          0 < reports.countP (fun r => r.reportLabel = lab) then
        [reports.countP (fun r => r.reportLabel = lab)]
      else []) := by
  refine ⟨List.sorted_insertionSort chartGe _, ?_⟩
  intro lab
  set rep' := reports.filter (fun r => !isInternalLabel r.reportLabel) with hrep'
  have hocc : occurrencesData reports =
      ((keysOf (rep'.map (fun r => r.reportLabel))).map (fun b =>
        ChartData.mk b (rep'.countP (fun r => r.reportLabel = b)) none)).insertionSort
        chartGe := by
    rw [occurrencesData, occCounts_eq_groupCounts, ← hrep', groupCounts_eq,
      List.map_map]
    rfl
  rw [hocc]
  have hperm :=
    ((List.perm_insertionSort chartGe
      ((keysOf (rep'.map (fun r => r.reportLabel))).map (fun b =>
        ChartData.mk b (rep'.countP (fun r => r.reportLabel = b)) none))).filter
      (fun e => e.label = lab))
  rw [filter_key_chart _ _ _ (nodup_keysOf _)] at hperm
  have hcnt : isInternalLabel lab = false →
      rep'.countP (fun r => r.reportLabel = lab) =
        reports.countP (fun r => r.reportLabel = lab) := by
    intro hni
    rw [hrep', List.countP_filter]
    refine List.countP_congr (fun r _ => ?_)
    simp only [Bool.and_eq_true, decide_eq_true_eq]
    constructor
    · exact fun hx => hx.1
    · intro h1
      refine ⟨h1, ?_⟩
      rw [h1, hni]
      rfl
  have hmem : lab ∈ keysOf (rep'.map (fun r => r.reportLabel)) ↔
      (isInternalLabel lab = false ∧
        0 < reports.countP (fun r => r.reportLabel = lab)) := by
    rw [mem_keysOf, List.mem_map]
    constructor
    · rintro ⟨r, hr, rfl⟩
      rw [hrep'] at hr
      obtain ⟨hrmem, hrni⟩ := List.mem_filter.mp hr
      refine ⟨by simpa using hrni, ?_⟩
      exact List.countP_pos_iff.mpr ⟨r, hrmem, by simp⟩
    · rintro ⟨hni, hpos⟩
      obtain ⟨r, hrmem, hrlab⟩ := List.countP_pos_iff.mp hpos
      simp only [decide_eq_true_eq] at hrlab
      refine ⟨r, ?_, hrlab⟩
      rw [hrep']
      refine List.mem_filter.mpr ⟨hrmem, ?_⟩
      rw [hrlab, hni]
      rfl
  by_cases hcond : isInternalLabel lab = false ∧
      0 < reports.countP (fun r => r.reportLabel = lab)
  · rw [if_pos hcond]
    rw [if_pos (hmem.mpr hcond)] at hperm
    rw [List.perm_singleton.mp hperm, List.map_singleton, hcnt hcond.1]
  · rw [if_neg hcond]
    rw [if_neg (fun hm => hcond (hmem.mp hm))] at hperm
    rw [List.Perm.eq_nil hperm]
    rfl

/-- Witness for C8 at a concrete input: the dunder-labelled report is
dropped, the other label is counted once. -/
theorem occurrences_excludes_internal_witness :
    ((occurrencesData [⟨"B1", "__internal__", "t1"⟩, ⟨"B1", "fire", "t2"⟩]).filter
      (fun e => e.label = "fire")).map (fun e => e.value) = [1] :=
  ((occurrences_excludes_internal
    [⟨"B1", "__internal__", "t1"⟩, ⟨"B1", "fire", "t2"⟩]).2 "fire").trans (by decide)

/-- C3 counterexample: the claim labels each visits group with the
participant company's name whenever some company has that booth code, but
on a company whose name is the empty string the code falls back to the
booth code — the single company here has booth code "B1" and name "", yet
the group is labelled "B1", not "". -/
theorem visits_label_counterexample :
    visitsData [{ id := "c1", name := "", boothCode := "B1", logoUrl := none }]
      [{ boothCode := "B1", reportLabel := "visit", timestamp := "t1" }] =
      [{ label := "B1", value := 1, logoUrl := none }] ∧
    ("" : String) ≠ "B1" := by decide

/-- C3 (amended): the visits ranking groups the (date-filtered) reports by
booth code, counts one per report, labels each group with the matching
participant company's name — falling back to the booth code itself when no
company has that booth code or when that company's name is empty — and is
sorted in descending order of count. -/
theorem visits_ranking_spec (d : String) (companies : List ParticipantCompany)
    (reports0 : List ReportSubmission) :
    List.Sorted (fun a b => b.value ≤ a.value)
      (visitsData companies (filteredReports d reports0)) ∧
    ∃ codes : List String, codes.Nodup ∧
      (∀ b, b ∈ codes ↔ ∃ r ∈ filteredReports d reports0, r.boothCode = b) ∧
      List.Perm
        ((visitsData companies (filteredReports d reports0)).map
          (fun e => (e.label, e.value)))
        (codes.map (fun b => (visitLabel companies b,
          (filteredReports d reports0).countP (fun r => r.boothCode = b)))) := by
  refine ⟨List.sorted_insertionSort chartGe _, ?_⟩
  refine ⟨keysOf ((filteredReports d reports0).map (fun r => r.boothCode)),
    nodup_keysOf _, ?_, ?_⟩
  · intro b
    rw [mem_keysOf]
    exact List.mem_map
  · have hx : ((groupCounts (fun r => r.boothCode) (filteredReports d reports0)).map
        (fun p => ({ label := visitLabel companies p.1
                     value := p.2
                     logoUrl := visitLogo companies p.1 } : ChartData))).map
          (fun e => (e.label, e.value)) =
        (keysOf ((filteredReports d reports0).map (fun r => r.boothCode))).map
          (fun b => (visitLabel companies b,
            (filteredReports d reports0).countP (fun r => r.boothCode = b))) := by
      rw [groupCounts_eq, List.map_map, List.map_map]
      rfl
    rw [visitsData]
    exact hx ▸ ((List.perm_insertionSort chartGe _).map (fun e => (e.label, e.value)))

/-- Witness for the amended C3 at a concrete input. -/
theorem visits_ranking_spec_witness :
    List.Sorted (fun a b => b.value ≤ a.value)
      (visitsData [{ id := "c1", name := "Acme", boothCode := "B1", logoUrl := none }]
        [{ boothCode := "B1", reportLabel := "visit",
           timestamp := "2024-01-02T10:00" }]) :=
  (visits_ranking_spec ""
    [{ id := "c1", name := "Acme", boothCode := "B1", logoUrl := none }]
    [{ boothCode := "B1", reportLabel := "visit",
       timestamp := "2024-01-02T10:00" }]).1

end CIE
